import Mathlib

/-!
Verification of the backtest engine (`src/backtest_engine.py`).

The Python source is shallowly embedded: pandas columns over float values
are modelled with exact rationals (`ℚ`), pandas `NaN` cells with `Option`,
and fallible operations with `Option`/`Except`.  Machine-float rounding is
not modelled, so equalities the spec states "within floating-point
tolerance" are proved exactly over `ℚ`.
-/

/-- A pandas data frame as used by `_compute_returns`: the engine only ever
looks at whether the frame is empty, whether a `"Close"` column is present,
and the column of closing prices itself. -/
structure DataFrame where
  hasClose : Bool
  close : List ℚ
deriving DecidableEq

/-- The metrics dictionary returned by `_compute_returns`.
`ret` models the `"return"` key (`return` is a reserved word in Lean). -/
structure Metrics where
  ret : ℚ
  buy_hold : ℚ
  strategy : ℚ
deriving DecidableEq

/-- `df["Close"].rolling(w).mean()` at row `i`: defined (`some`) exactly when
row `i` exists and at least `w` rows precede it inclusively; `none` models
pandas `NaN`. -/
def rollingMean (w : ℕ) (closes : List ℚ) (i : ℕ) : Option ℚ :=
  if w ≤ i + 1 ∧ i < closes.length then
    some (((closes.drop (i + 1 - w)).take w).sum / w)
  else none

/-- `(df["MA50"] > df["MA200"]).astype(int)` at row `i`.  A comparison with
`NaN` is `False` in pandas, hence `0` when either average is undefined. -/
def signal (closes : List ℚ) (i : ℕ) : ℚ :=
  match rollingMean 50 closes i, rollingMean 200 closes i with
  | some a, some b => if b < a then 1 else 0
  | _, _ => 0

/-- `df["Close"].pct_change()` at row `i ≥ 1` (row `0` is `NaN` and is
handled at the call sites by restricting products to `i ≥ 1`). -/
def pctChange (closes : List ℚ) (i : ℕ) : ℚ :=
  closes.getD i 0 / closes.getD (i - 1) 0 - 1

/-- `(1 + df["Return"]).prod() - 1`: pandas `prod` skips the `NaN` at row
`0`, so the product ranges over rows `1 … n-1`. -/
def buyHoldCum (closes : List ℚ) : ℚ :=
  (∏ i ∈ Finset.Ico 1 closes.length, (1 + pctChange closes i)) - 1

/-- `(1 + df["Strategy"]).prod() - 1` where
`df["Strategy"] = df["Signal"].shift(1) * df["Return"]`: the shifted signal
is `NaN` at row `0` only, so the product ranges over rows `1 … n-1` with the
signal taken at row `i - 1`. -/
def strategyCum (closes : List ℚ) : ℚ :=
  (∏ i ∈ Finset.Ico 1 closes.length,
    (1 + signal closes (i - 1) * pctChange closes i)) - 1

/-- `_compute_returns`: returns `None` on an empty frame or a frame without
a `"Close"` column, otherwise the three percentage metrics. -/
def _compute_returns (df : DataFrame) : Option Metrics :=
  if df.close.isEmpty || !df.hasClose then none
  else
    some { ret := (strategyCum df.close - buyHoldCum df.close) * 100
           buy_hold := buyHoldCum df.close * 100
           strategy := strategyCum df.close * 100 }

/-- The body of `_compute_returns` first does `df = df.copy()` and mutates
only the copy, so a call returns its metrics and leaves the caller's frame
untouched; this state-passing wrapper makes that explicit. -/
def _compute_returns_run (df : DataFrame) : Option Metrics × DataFrame :=
  (_compute_returns df, df)

/-- The flat result dictionary `{"ticker": ticker, **metrics}` produced by
`_download_and_backtest_one`. -/
structure TickerResult where
  ticker : String
  ret : ℚ
  buy_hold : ℚ
  strategy : ℚ
deriving DecidableEq

/-- Observable behaviour of one `_download_and_backtest_one` call: the
returned value, how many times `yf.download` was attempted, and the
durations passed to `time.sleep` in order. -/
structure EvalOutcome where
  result : Option TickerResult
  attempts : ℕ
  sleeps : List ℚ
deriving DecidableEq

/-- The `for attempt in range(RETRIES + 1)` loop of
`_download_and_backtest_one`.  `fetch a` is the outcome of
`yf.download(ticker, ...)` on attempt number `a` (the network is external,
so it is a parameter); an exception is an `Except.error`.  On an exception
the loop sleeps `0.8 * (attempt + 1)` and retries; on a successful fetch it
returns the metrics (or `None` when `_compute_returns` yields `None`). -/
def attemptFrom (fetch : ℕ → Except String DataFrame) (ticker : String) :
    ℕ → ℕ → EvalOutcome
  | _, 0 => ⟨none, 0, []⟩
  | attempt, k + 1 =>
    match fetch attempt with
    | Except.ok data =>
      match _compute_returns data with
      | none => ⟨none, 1, []⟩
      | some m => ⟨some ⟨ticker, m.ret, m.buy_hold, m.strategy⟩, 1, []⟩
    | Except.error _ =>
      let rest := attemptFrom fetch ticker (attempt + 1) k
      ⟨rest.result, rest.attempts + 1, (0.8 : ℚ) * (attempt + 1) :: rest.sleeps⟩

/-- `_download_and_backtest_one`: at most `retries + 1` fetch attempts,
starting at attempt number 0; falls through to `None` after the loop. -/
def _download_and_backtest_one (retries : ℕ)
    (fetch : ℕ → Except String DataFrame) (ticker : String) : EvalOutcome :=
  attemptFrom fetch ticker 0 (retries + 1)

/-- The run metadata dictionary (`meta`) of `backtest_tickers`.  The
`source`, date and timestamp fields carry no logic and are omitted. -/
structure RunMeta where
  total_tickers : ℕ
  batch_size : ℕ
  max_workers : ℕ
  retries : ℕ
  lookback_days : ℕ
  batches : ℕ
  completed_batches : ℕ
  completed_count : ℕ
  failed_count : ℕ
deriving DecidableEq

/-- One persisted `state.json` payload (`last_update` is wall-clock time
and is not modelled). -/
structure Snapshot where
  results : List TickerResult
  meta : RunMeta
deriving DecidableEq

/-- `sorted(partial_results, key=lambda x: x["return"], reverse=True)`:
a stable descending sort on the `return` field; `insertionSort` with this
relation is stable in the same sense as Python's `sorted`. -/
def sortByReturnDesc (results : List TickerResult) : List TickerResult :=
  results.insertionSort (fun x y => y.ret ≤ x.ret)

/-- `_save_progress`: sorts the accumulated results descending by
`"return"` and wraps them with the metadata; `_save_state` then persists
this payload. -/
def _save_progress (acc : List TickerResult) (meta : RunMeta) : Snapshot :=
  { results := sortByReturnDesc acc, meta := meta }

/-- `_chunked(seq, n)`: slices `seq[i:i+n]` for `i = 0, n, 2n, …`.
Python's `range` raises on step `n = 0`; the model returns `[]` there and
every scheduler theorem assumes a positive batch size. -/
def _chunked {α : Type} (seq : List α) (n : ℕ) : List (List α) :=
  if h : seq.length = 0 ∨ n = 0 then []
  else seq.take n :: _chunked (seq.drop n) n
termination_by seq.length
decreasing_by
  push_neg at h
  simp only [List.length_drop]
  omega

/-- The batch loop of `backtest_tickers`.  `ev t` is the value of
`fut.result()` for ticker `t` (the worker-pool completion order does not
affect any persisted value, so batch results are collected in submission
order).  Returns the list of per-batch snapshot writes, the accumulated
results and the final metadata. -/
def runBatches (ev : String → Option TickerResult) :
    List (List String) → ℕ → List TickerResult → RunMeta →
      List Snapshot × List TickerResult × RunMeta
  | [], _, acc, meta => ([], acc, meta)
  | batch :: rest, batch_index, acc, meta =>
    let results_batch := batch.filterMap ev
    let failed := (batch.filter (fun t => (ev t).isNone)).length
    let acc2 := acc ++ results_batch
    let meta2 := { meta with
      completed_batches := batch_index
      completed_count := acc2.length
      failed_count := meta.failed_count + failed }
    let rec2 := runBatches ev rest (batch_index + 1) acc2 meta2
    (_save_progress acc2 meta2 :: rec2.1, rec2.2)

/-- The per-ticker outcome a batch worker hands back to the scheduler:
`_download_and_backtest_one` for ticker `t`, with `fetches t a` the
external fetch outcome for ticker `t` on attempt `a`. -/
def evalTicker (retries : ℕ) (fetches : String → ℕ → Except String DataFrame)
    (t : String) : Option TickerResult :=
  (_download_and_backtest_one retries (fetches t) t).result

/-- Everything `backtest_tickers` persists: the initial empty write, one
write per batch, and the trailing final write (represented by
`finalResults`/`finalMeta`, see `RunOutput.writes`). -/
structure RunOutput where
  initWrite : Snapshot
  batchWrites : List Snapshot
  finalResults : List TickerResult
  finalMeta : RunMeta

/-- The snapshots handed to `_save_state`, in write order: the initial
empty write, each per-batch progress write, and the final write. -/
def RunOutput.writes (r : RunOutput) : List Snapshot :=
  (r.initWrite :: r.batchWrites) ++ [_save_progress r.finalResults r.finalMeta]

/-- `backtest_tickers`: initializes the metadata (with
`batches = math.ceil(total / batch_size)`, which for a positive batch size
equals `(total + batch_size - 1) / batch_size`), writes the empty snapshot,
then runs the batches. -/
def backtest_tickers (batch_size max_workers retries lookback_days : ℕ)
    (fetches : String → ℕ → Except String DataFrame)
    (tickers : List String) : RunOutput :=
  let total := tickers.length
  let meta0 : RunMeta :=
    { total_tickers := total
      batch_size := batch_size
      max_workers := max_workers
      retries := retries
      lookback_days := lookback_days
      batches := (total + batch_size - 1) / batch_size
      completed_batches := 0
      completed_count := 0
      failed_count := 0 }
  let out := runBatches (evalTicker retries fetches)
    (_chunked tickers batch_size) 1 [] meta0
  { initWrite := _save_progress [] meta0
    batchWrites := out.1
    finalResults := out.2.1
    finalMeta := out.2.2 }

/-- A reader-observable state of the persisted `state.json` artifact. -/
inductive FileState where
  | absent
  | written (content : String)
deriving DecidableEq

/-- Python's `Path.write_text` opens the target in mode `"w"`, which first
truncates it to the empty file and then writes the new content in place.
The list collects the successive states a concurrent reader can observe,
in order.  (Partially transferred prefixes are also observable in general;
the truncated/empty state suffices for the claims at hand.) -/
def write_text_states (old : FileState) (content : String) : List FileState :=
  [old, FileState.written "", FileState.written content]

/-- `_save_state(data)`: a single in-place `write_text` of the serialized
payload — no staging file, no rename. -/
def _save_state_states (old : FileState) (payload : String) :
    List FileState :=
  write_text_states old payload

/-- Modelled from the spec: a `write(snapshot)` implemented as an atomic
stage-then-rename replace, whose only reader-observable states are the old
artifact and the new one. -/
def atomic_replace_states (old : FileState) (content : String) :
    List FileState :=
  [old, FileState.written content]

/-- `line.replace(",", " ")`, character by character. -/
def commasToSpaces (l : List Char) : List Char :=
  l.map (fun c => if c = ',' then ' ' else c)

/-- Helper for `splitWs`: the accumulator holds the current token,
reversed. -/
def splitWsAux : List Char → List Char → List (List Char)
  | [], acc => if acc = [] then [] else [acc.reverse]
  | c :: cs, acc =>
    if c.isWhitespace then
      if acc = [] then splitWsAux cs []
      else acc.reverse :: splitWsAux cs []
    else splitWsAux cs (c :: acc)

/-- Python's `str.split()` with no argument: split on runs of whitespace,
producing no empty tokens. -/
def splitWs (l : List Char) : List (List Char) :=
  splitWsAux l []

/-- Python's `str.strip()`: remove leading and trailing whitespace. -/
def stripChars (l : List Char) : List Char :=
  ((l.dropWhile Char.isWhitespace).reverse.dropWhile Char.isWhitespace).reverse

/-- Helper for `splitLines`. -/
def splitLinesAux : List Char → List Char → List (List Char)
  | [], acc => [acc.reverse]
  | c :: cs, acc =>
    if c = '\n' then acc.reverse :: splitLinesAux cs []
    else splitLinesAux cs (c :: acc)

/-- `raw.splitlines()`, restricted to `'\n'` separators (the exotic
separators Python additionally recognizes are immaterial here, since every
token is subsequently re-split on all whitespace). -/
def splitLines (l : List Char) : List (List Char) :=
  splitLinesAux l []

/-- The token-gathering loop of `read_tickers`: per line,
`[p.strip() for p in line.replace(",", " ").split()]` filtered to the
non-empty tokens, extended across lines in order. -/
def tokenize (raw : String) : List (List Char) :=
  ((splitLines raw.data).map (fun line =>
    ((splitWs (commasToSpaces line)).map stripChars).filter
      (fun p => p ≠ []))).flatten

/-- `t.upper()` (ASCII tickers; `Char.toUpper` coincides with Python's
`str.upper` on them). -/
def upperChars (l : List Char) : List Char :=
  l.map Char.toUpper

/-- The de-duplication loop of `read_tickers`: membership in `seen` is
tested on the raw token `t`, while the *uppercased* token `t.upper()` is
what gets appended to `uniq`. -/
def dedupUpper : List (List Char) → List (List Char) → List String
  | [], _ => []
  | t :: ts, seen =>
    if t ∈ seen then dedupUpper ts seen
    else String.mk (upperChars t) :: dedupUpper ts (t :: seen)

/-- The hardcoded fallback list of `read_tickers`. -/
def default_tickers : List String :=
  ["AAPL", "MSFT", "GOOGL", "AMZN", "META", "NVDA"]

/-- `read_tickers()`, with the ticker-universe file content as an explicit
argument (`none` models a missing `tickers.txt`). -/
def read_tickers (file : Option String) : List String :=
  match file with
  | some raw =>
    let uniq := dedupUpper (tokenize raw) []
    if uniq ≠ [] then uniq else default_tickers
  | none => default_tickers

/-- First-occurrence-wins de-duplication, as a specification-level
description (used to characterize what `read_tickers` actually computes). -/
def firstOccurrenceDedup : List (List Char) → List (List Char)
  | [] => []
  | t :: ts => t :: firstOccurrenceDedup (ts.filter (fun x => x ≠ t))
termination_by l => l.length
decreasing_by
  simp only [List.length_cons]
  exact Nat.lt_succ_of_le (List.length_filter_le _ _)

lemma rollingMean_200_eq_none {closes : List ℚ} (h2 : closes.length < 200)
    (i : ℕ) : rollingMean 200 closes i = none := by
  unfold rollingMean
  rw [if_neg]
  rintro ⟨hw, hi⟩
  omega

lemma signal_eq_zero {closes : List ℚ} (h2 : closes.length < 200) (i : ℕ) :
    signal closes i = 0 := by
  unfold signal
  rw [rollingMean_200_eq_none h2 i]
  rcases rollingMean 50 closes i with _ | a <;> rfl

lemma strategyCum_eq_zero {closes : List ℚ} (h2 : closes.length < 200) :
    strategyCum closes = 0 := by
  unfold strategyCum
  have h : ∀ i ∈ Finset.Ico 1 closes.length,
      (1 + signal closes (i - 1) * pctChange closes i) = 1 := by
    intro i _
    rw [signal_eq_zero h2]
    ring
  rw [Finset.prod_congr rfl h, Finset.prod_const_one]
  norm_num

/-- **C3.** For every non-empty price series with a closing-price field and
fewer than 200 rows, the 200-period moving average is undefined at every
row, the crossover signal is 0 at every row, and the computed
`strategy_pct` equals 0. -/
theorem c3_short_series_no_signal (closes : List ℚ) (h1 : closes ≠ [])
    (h2 : closes.length < 200) :
    (∀ i, rollingMean 200 closes i = none) ∧
    (∀ i, signal closes i = 0) ∧
    ∃ m, _compute_returns ⟨true, closes⟩ = some m ∧ m.strategy = 0 := by
  refine ⟨rollingMean_200_eq_none h2, signal_eq_zero h2, ?_⟩
  refine ⟨{ ret := (strategyCum closes - buyHoldCum closes) * 100
            buy_hold := buyHoldCum closes * 100
            strategy := strategyCum closes * 100 }, ?_, ?_⟩
  · unfold _compute_returns
    rw [if_neg]
    simp [h1]
  · simp [strategyCum_eq_zero h2]

theorem c3_short_series_no_signal_witness :
    (([1, 2] : List ℚ) ≠ [] ∧ ([1, 2] : List ℚ).length < 200) ∧
    (∀ i, rollingMean 200 [1, 2] i = none) ∧
    (∀ i, signal [1, 2] i = 0) ∧
    ∃ m, _compute_returns ⟨true, [1, 2]⟩ = some m ∧ m.strategy = 0 :=
  ⟨⟨by simp, by simp⟩, c3_short_series_no_signal [1, 2] (by simp) (by simp)⟩

/-- **C4.** Whenever `_compute_returns` produces metrics, the `return`
field equals `strategy - buy_hold` (exactly, over `ℚ`). -/
theorem c4_return_eq_strategy_sub_buyhold (df : DataFrame) (m : Metrics)
    (h : _compute_returns df = some m) : m.ret = m.strategy - m.buy_hold := by
  unfold _compute_returns at h
  split at h
  · exact absurd h (by simp)
  · rw [Option.some_inj] at h
    subst h
    ring

theorem c4_return_eq_strategy_sub_buyhold_witness :
    _compute_returns ⟨true, [1]⟩ = some ⟨0, 0, 0⟩ ∧
    (⟨0, 0, 0⟩ : Metrics).ret = (⟨0, 0, 0⟩ : Metrics).strategy -
      (⟨0, 0, 0⟩ : Metrics).buy_hold := by
  have h : _compute_returns ⟨true, [1]⟩ = some ⟨0, 0, 0⟩ := by
    unfold _compute_returns strategyCum buyHoldCum
    norm_num
  exact ⟨h, c4_return_eq_strategy_sub_buyhold ⟨true, [1]⟩ ⟨0, 0, 0⟩ h⟩

/-- **C9.** The Signal Calculator is deterministic and idempotent: it
operates on an internal copy (`df = df.copy()`), so running it a second
time on the state left by the first run yields the identical output. -/
theorem c9_signal_calculator_idempotent (df : DataFrame) :
    (_compute_returns_run ((_compute_returns_run df).2)).1 =
      (_compute_returns_run df).1 := rfl

lemma chunked_nil {α : Type} (n : ℕ) : _chunked ([] : List α) n = [] := by
  rw [_chunked]
  simp

lemma chunked_cons {α : Type} {seq : List α} {n : ℕ} (h1 : seq ≠ [])
    (h2 : n ≠ 0) : _chunked seq n = seq.take n :: _chunked (seq.drop n) n := by
  rw [_chunked, dif_neg]
  simp [h1, h2]

lemma chunked_flatten {α : Type} (seq : List α) (n : ℕ) :
    n ≠ 0 → (_chunked seq n).flatten = seq := by
  induction seq, n using _chunked.induct with
  | case1 seq n h =>
    intro hn
    rcases h with h | h
    · rw [List.length_eq_zero] at h
      subst h
      simp [chunked_nil]
    · exact absurd h hn
  | case2 seq n h ih =>
    intro hn
    push_neg at h
    rw [chunked_cons (fun hc => h.1 (by simp [hc])) h.2, List.flatten_cons,
      ih hn, List.take_append_drop]

lemma chunked_length {α : Type} (seq : List α) (n : ℕ) :
    (_chunked seq n).length = (seq.length + n - 1) / n := by
  induction seq, n using _chunked.induct with
  | case1 seq n h =>
    rcases h with h | h
    · rw [_chunked, dif_pos (Or.inl h), h]
      rcases Nat.eq_zero_or_pos n with h0 | h0
      · simp [h0]
      · have e : (n - 1) / n = 0 := Nat.div_eq_of_lt (by omega)
        simp [e]
    · rw [_chunked, dif_pos (Or.inr h), h]
      simp
  | case2 seq n h ih =>
    push_neg at h
    have hn : 1 ≤ n := by omega
    rw [chunked_cons (fun hc => h.1 (by simp [hc])) h.2]
    simp only [List.length_cons, ih, List.length_drop]
    have key : seq.length + n - 1 = (seq.length - 1) + n := by omega
    rw [key, Nat.add_div_right _ hn]
    rcases le_or_lt n seq.length with hc | hc
    · have e : seq.length - n + n - 1 = seq.length - 1 := by omega
      rw [e]
    · have e1 : (seq.length - n + n - 1) / n = 0 := Nat.div_eq_of_lt (by omega)
      have e2 : (seq.length - 1) / n = 0 := Nat.div_eq_of_lt (by omega)
      rw [e1, e2]

lemma chunked_ceil_bounds {α : Type} (seq : List α) (n : ℕ) (hn : n ≠ 0) :
    seq.length ≤ n * (_chunked seq n).length ∧
      n * (_chunked seq n).length < seq.length + n := by
  rw [chunked_length]
  have h1 := Nat.mul_div_le (seq.length + n - 1) n
  have h2 := Nat.div_add_mod (seq.length + n - 1) n
  have h3 : (seq.length + n - 1) % n < n := Nat.mod_lt _ (by omega)
  constructor <;> omega

lemma sortByReturnDesc_perm (l : List TickerResult) :
    (sortByReturnDesc l).Perm l :=
  List.perm_insertionSort _ _

lemma sortByReturnDesc_length (l : List TickerResult) :
    (sortByReturnDesc l).length = l.length :=
  List.length_insertionSort _ _

lemma sortByReturnDesc_sorted (l : List TickerResult) :
    List.Pairwise (fun x y => y.ret ≤ x.ret) (sortByReturnDesc l) := by
  haveI : IsTotal TickerResult (fun x y => y.ret ≤ x.ret) :=
    ⟨fun a b => le_total b.ret a.ret⟩
  haveI : IsTrans TickerResult (fun x y => y.ret ≤ x.ret) :=
    ⟨fun _ _ _ h1 h2 => le_trans h2 h1⟩
  exact List.sorted_insertionSort _ l

lemma length_filterMap_add_length_filter (ev : String → Option TickerResult)
    (l : List String) :
    (l.filterMap ev).length +
      (l.filter (fun t => (ev t).isNone)).length = l.length := by
  induction l with
  | nil => rfl
  | cons t ts ih =>
    cases h : ev t <;>
      simp [List.filterMap_cons, List.filter_cons, h] <;> omega

lemma runBatches_mem_shape (ev : String → Option TickerResult) :
    ∀ (bs : List (List String)) (idx : ℕ) (acc : List TickerResult)
      (meta : RunMeta) (s : Snapshot),
      s ∈ (runBatches ev bs idx acc meta).1 →
      ∃ res m, s = _save_progress res m := by
  intro bs
  induction bs with
  | nil =>
    intro idx acc meta s hs
    simp [runBatches] at hs
  | cons batch rest ih =>
    intro idx acc meta s hs
    simp only [runBatches, List.mem_cons] at hs
    rcases hs with rfl | hs
    · exact ⟨_, _, rfl⟩
    · exact ih _ _ _ s hs

lemma runBatches_writes_length (ev : String → Option TickerResult) :
    ∀ (bs : List (List String)) (idx : ℕ) (acc : List TickerResult)
      (meta : RunMeta),
      (runBatches ev bs idx acc meta).1.length = bs.length := by
  intro bs
  induction bs with
  | nil => intro idx acc meta; rfl
  | cons batch rest ih =>
    intro idx acc meta
    simp only [runBatches, List.length_cons, ih]

lemma runBatches_completed (ev : String → Option TickerResult) :
    ∀ (bs : List (List String)) (idx : ℕ) (acc : List TickerResult)
      (meta : RunMeta), meta.completed_count = acc.length →
      (∀ s ∈ (runBatches ev bs idx acc meta).1,
        s.meta.completed_count = s.results.length) ∧
      (runBatches ev bs idx acc meta).2.2.completed_count =
        (runBatches ev bs idx acc meta).2.1.length := by
  intro bs
  induction bs with
  | nil =>
    intro idx acc meta hm
    refine ⟨fun s hs => absurd hs (by simp [runBatches]), ?_⟩
    simpa [runBatches] using hm
  | cons batch rest ih =>
    intro idx acc meta hm
    have ih2 := ih (idx + 1) (acc ++ batch.filterMap ev)
      { meta with
        completed_batches := idx
        completed_count := (acc ++ batch.filterMap ev).length
        failed_count := meta.failed_count +
          (batch.filter (fun t => (ev t).isNone)).length } rfl
    constructor
    · intro s hs
      simp only [runBatches, List.mem_cons] at hs
      rcases hs with rfl | hs
      · simp [_save_progress, sortByReturnDesc_length]
      · exact ih2.1 s hs
    · simpa [runBatches] using ih2.2

lemma runBatches_batches_const (ev : String → Option TickerResult) :
    ∀ (bs : List (List String)) (idx : ℕ) (acc : List TickerResult)
      (meta : RunMeta),
      (∀ s ∈ (runBatches ev bs idx acc meta).1, s.meta.batches = meta.batches) ∧
      (runBatches ev bs idx acc meta).2.2.batches = meta.batches := by
  intro bs
  induction bs with
  | nil =>
    intro idx acc meta
    exact ⟨fun s hs => absurd hs (by simp [runBatches]), by simp [runBatches]⟩
  | cons batch rest ih =>
    intro idx acc meta
    have ih2 := ih (idx + 1) (acc ++ batch.filterMap ev)
      { meta with
        completed_batches := idx
        completed_count := (acc ++ batch.filterMap ev).length
        failed_count := meta.failed_count +
          (batch.filter (fun t => (ev t).isNone)).length }
    constructor
    · intro s hs
      simp only [runBatches, List.mem_cons] at hs
      rcases hs with rfl | hs
      · simp [_save_progress]
      · exact ih2.1 s hs
    · simpa [runBatches] using ih2.2

lemma runBatches_final_results (ev : String → Option TickerResult) :
    ∀ (bs : List (List String)) (idx : ℕ) (acc : List TickerResult)
      (meta : RunMeta),
      (runBatches ev bs idx acc meta).2.1 = acc ++ bs.flatten.filterMap ev := by
  intro bs
  induction bs with
  | nil => intro idx acc meta; simp [runBatches]
  | cons batch rest ih =>
    intro idx acc meta
    simp only [runBatches, ih, List.flatten_cons, List.filterMap_append,
      List.append_assoc]

lemma runBatches_final_failed (ev : String → Option TickerResult) :
    ∀ (bs : List (List String)) (idx : ℕ) (acc : List TickerResult)
      (meta : RunMeta),
      (runBatches ev bs idx acc meta).2.2.failed_count =
        meta.failed_count +
          (bs.flatten.filter (fun t => (ev t).isNone)).length := by
  intro bs
  induction bs with
  | nil => intro idx acc meta; simp [runBatches]
  | cons batch rest ih =>
    intro idx acc meta
    simp only [runBatches, ih, List.flatten_cons, List.filter_append,
      List.length_append]
    omega

lemma runBatches_counts (ev : String → Option TickerResult) :
    ∀ (bs : List (List String)) (idx : ℕ) (acc : List TickerResult)
      (meta : RunMeta) (k : ℕ)
      (hk : k < (runBatches ev bs idx acc meta).1.length),
      ((runBatches ev bs idx acc meta).1.get ⟨k, hk⟩).meta.completed_count +
        ((runBatches ev bs idx acc meta).1.get ⟨k, hk⟩).meta.failed_count =
      acc.length + meta.failed_count +
        ((bs.take (k + 1)).map List.length).sum := by
  intro bs
  induction bs with
  | nil =>
    intro idx acc meta k hk
    rw [runBatches_writes_length] at hk
    exact absurd hk (by simp)
  | cons batch rest ih =>
    intro idx acc meta k hk
    match k with
    | 0 =>
      simp only [runBatches, List.get, _save_progress, List.take_succ_cons,
        List.take_zero, List.map_cons, List.map_nil, List.sum_cons,
        List.sum_nil, List.length_append]
      have := length_filterMap_add_length_filter ev batch
      omega
    | k + 1 =>
      have hk' : k < (runBatches ev rest (idx + 1) (acc ++ batch.filterMap ev)
          { meta with
            completed_batches := idx
            completed_count := (acc ++ batch.filterMap ev).length
            failed_count := meta.failed_count +
              (batch.filter (fun t => (ev t).isNone)).length }).1.length := by
        rw [runBatches_writes_length]
        rw [runBatches_writes_length] at hk
        simpa using Nat.lt_of_succ_lt_succ hk
      have := ih (idx + 1) (acc ++ batch.filterMap ev)
        { meta with
          completed_batches := idx
          completed_count := (acc ++ batch.filterMap ev).length
          failed_count := meta.failed_count +
            (batch.filter (fun t => (ev t).isNone)).length } k hk'
      simp only [runBatches, List.get, List.take_succ_cons, List.map_cons,
        List.sum_cons]
      rw [this]
      simp only [List.length_append]
      have h2 := length_filterMap_add_length_filter ev batch
      omega

lemma runBatches_results_at (ev : String → Option TickerResult) :
    ∀ (bs : List (List String)) (idx : ℕ) (acc : List TickerResult)
      (meta : RunMeta) (k : ℕ)
      (hk : k < (runBatches ev bs idx acc meta).1.length),
      ((runBatches ev bs idx acc meta).1.get ⟨k, hk⟩).results =
        sortByReturnDesc (acc ++ (bs.take (k + 1)).flatten.filterMap ev) := by
  intro bs
  induction bs with
  | nil =>
    intro idx acc meta k hk
    rw [runBatches_writes_length] at hk
    exact absurd hk (by simp)
  | cons batch rest ih =>
    intro idx acc meta k hk
    match k with
    | 0 =>
      simp [runBatches, List.get, _save_progress]
    | k + 1 =>
      have hk' : k < (runBatches ev rest (idx + 1) (acc ++ batch.filterMap ev)
          { meta with
            completed_batches := idx
            completed_count := (acc ++ batch.filterMap ev).length
            failed_count := meta.failed_count +
              (batch.filter (fun t => (ev t).isNone)).length }).1.length := by
        rw [runBatches_writes_length]
        rw [runBatches_writes_length] at hk
        simpa using Nat.lt_of_succ_lt_succ hk
      have := ih (idx + 1) (acc ++ batch.filterMap ev)
        { meta with
          completed_batches := idx
          completed_count := (acc ++ batch.filterMap ev).length
          failed_count := meta.failed_count +
            (batch.filter (fun t => (ev t).isNone)).length } k hk'
      simp only [runBatches, List.get, List.take_succ_cons, List.flatten_cons,
        List.filterMap_append, List.append_assoc]
      rw [this]
      simp [List.filterMap_append, List.append_assoc]

lemma attemptFrom_all_fail (fetch : ℕ → Except String DataFrame) (t : String)
    (hf : ∀ i, ∃ e, fetch i = Except.error e) :
    ∀ (k a : ℕ), attemptFrom fetch t a k =
      ⟨none, k, (List.range k).map
        (fun j => (0.8 : ℚ) * ((a + j : ℕ) + 1))⟩ := by
  intro k
  induction k with
  | zero => intro a; rfl
  | succ k ih =>
    intro a
    obtain ⟨e, he⟩ := hf a
    simp only [attemptFrom, he]
    rw [ih (a + 1)]
    simp only [EvalOutcome.mk.injEq, true_and]
    rw [List.range_succ_eq_map, List.map_cons, List.map_map]
    refine List.cons_eq_cons.mpr ⟨by push_cast; ring, ?_⟩
    apply List.map_congr_left
    intro j _
    simp only [Function.comp_apply]
    push_cast
    ring

lemma attemptFrom_result_ticker (fetch : ℕ → Except String DataFrame)
    (t : String) :
    ∀ (k a : ℕ) (r : TickerResult),
      (attemptFrom fetch t a k).result = some r → r.ticker = t := by
  intro k
  induction k with
  | zero => intro a r h; simp [attemptFrom] at h
  | succ k ih =>
    intro a r h
    cases hf : fetch a with
    | ok df =>
      cases hm : _compute_returns df with
      | none => simp [attemptFrom, hf, hm] at h
      | some m =>
        simp only [attemptFrom, hf, hm, Option.some_inj] at h
        rw [← h]
    | error e =>
      simp only [attemptFrom, hf] at h
      exact ih (a + 1) r h

lemma evalTicker_ticker (retries : ℕ)
    (fetches : String → ℕ → Except String DataFrame) (t : String)
    (r : TickerResult) (h : evalTicker retries fetches t = some r) :
    r.ticker = t :=
  attemptFrom_result_ticker (fetches t) t (retries + 1) 0 r h

lemma map_ticker_filterMap (ev : String → Option TickerResult)
    (hev : ∀ t x, ev t = some x → x.ticker = t) (l : List String) :
    (l.filterMap ev).map TickerResult.ticker =
      l.filter (fun t => (ev t).isSome) := by
  induction l with
  | nil => rfl
  | cons t ts ih =>
    cases h : ev t with
    | none => simp [List.filterMap_cons, List.filter_cons, h, ih]
    | some x => simp [List.filterMap_cons, List.filter_cons, h, ih, hev t x h]

/-- **C2.** After every snapshot write performed by the batch scheduler —
the initial empty write, each per-batch progress write, and the final
write — the persisted snapshot satisfies
`meta.completed_count == len(results)` and `results` is sorted in
descending order of the `return` field. -/
theorem c2_every_write_counts_match_and_sorted
    (batch_size max_workers retries lookback_days : ℕ)
    (hb : 0 < batch_size)
    (fetches : String → ℕ → Except String DataFrame)
    (tickers : List String) :
    ∀ snap ∈ (backtest_tickers batch_size max_workers retries lookback_days
        fetches tickers).writes,
      snap.meta.completed_count = snap.results.length ∧
      List.Pairwise (fun x y => y.ret ≤ x.ret) snap.results := by
  intro snap hsnap
  simp only [backtest_tickers, RunOutput.writes, List.mem_append,
    List.mem_cons, List.mem_singleton, List.not_mem_nil, or_false] at hsnap
  rcases hsnap with (rfl | hsnap) | rfl
  · exact ⟨rfl, sortByReturnDesc_sorted []⟩
  · have hc := (runBatches_completed _ _ _ _ _ rfl).1 snap hsnap
    obtain ⟨res, m, rfl⟩ := runBatches_mem_shape _ _ _ _ _ snap hsnap
    exact ⟨hc, sortByReturnDesc_sorted res⟩
  · refine ⟨?_, sortByReturnDesc_sorted _⟩
    show _ = (sortByReturnDesc _).length
    rw [sortByReturnDesc_length]
    exact (runBatches_completed _ _ _ _ _ rfl).2

theorem c2_every_write_counts_match_and_sorted_witness :
    0 < 1 ∧
    ∀ snap ∈ (backtest_tickers 1 4 2 365
        (fun _ _ => Except.error "down") ["A"]).writes,
      snap.meta.completed_count = snap.results.length ∧
      List.Pairwise (fun x y => y.ret ≤ x.ret) snap.results :=
  ⟨by decide, c2_every_write_counts_match_and_sorted 1 4 2 365 (by decide)
    (fun _ _ => Except.error "down") ["A"]⟩

/-- **C5.** For every ticker list and positive batch size, `_chunked`
partitions the list into contiguous batches whose concatenation is the
original list (order preserved, nothing dropped or duplicated), whose
sizes sum to the list length, and whose number is exactly
`ceil(n / b) = (n + b - 1) / b` (pinned down by the two inequalities);
the `batches` metadata field of every persisted snapshot equals that
number. -/
theorem c5_chunking_partitions_exactly
    (batch_size max_workers retries lookback_days : ℕ)
    (hb : 0 < batch_size)
    (fetches : String → ℕ → Except String DataFrame)
    (tickers : List String) :
    (_chunked tickers batch_size).flatten = tickers ∧
    ((_chunked tickers batch_size).map List.length).sum = tickers.length ∧
    (_chunked tickers batch_size).length =
      (tickers.length + batch_size - 1) / batch_size ∧
    tickers.length ≤ batch_size * (_chunked tickers batch_size).length ∧
    batch_size * (_chunked tickers batch_size).length <
      tickers.length + batch_size ∧
    ∀ snap ∈ (backtest_tickers batch_size max_workers retries lookback_days
        fetches tickers).writes,
      snap.meta.batches = (_chunked tickers batch_size).length := by
  have hb' : batch_size ≠ 0 := by omega
  have hfl := chunked_flatten tickers batch_size hb'
  have hlen := chunked_length tickers batch_size
  have hbounds := chunked_ceil_bounds tickers batch_size hb'
  refine ⟨hfl, ?_, hlen, hbounds.1, hbounds.2, ?_⟩
  · have := List.length_flatten (_chunked tickers batch_size)
    rw [hfl] at this
    exact this.symm
  · intro snap hsnap
    simp only [backtest_tickers, RunOutput.writes, List.mem_append,
      List.mem_cons, List.mem_singleton, List.not_mem_nil, or_false] at hsnap
    rcases hsnap with (rfl | hsnap) | rfl
    · rw [hlen]
      rfl
    · rw [(runBatches_batches_const _ _ _ _ _).1 snap hsnap, hlen]
    · show (_save_progress _ _).meta.batches = _
      rw [show (_save_progress _ _).meta.batches =
        (runBatches (evalTicker retries fetches)
          (_chunked tickers batch_size) 1 []
          { total_tickers := tickers.length, batch_size := batch_size,
            max_workers := max_workers, retries := retries,
            lookback_days := lookback_days,
            batches := (tickers.length + batch_size - 1) / batch_size,
            completed_batches := 0, completed_count := 0,
            failed_count := 0 }).2.2.batches from rfl,
        (runBatches_batches_const _ _ _ _ _).2, hlen]

theorem c5_chunking_partitions_exactly_witness :
    0 < 2 ∧
    ((_chunked ["A", "B", "C"] 2).flatten = ["A", "B", "C"] ∧
    ((_chunked ["A", "B", "C"] 2).map List.length).sum = 3 ∧
    (_chunked ["A", "B", "C"] 2).length = (3 + 2 - 1) / 2 ∧
    3 ≤ 2 * (_chunked ["A", "B", "C"] 2).length ∧
    2 * (_chunked ["A", "B", "C"] 2).length < 3 + 2 ∧
    ∀ snap ∈ (backtest_tickers 2 4 2 365
        (fun _ _ => Except.error "down") ["A", "B", "C"]).writes,
      snap.meta.batches = (_chunked ["A", "B", "C"] 2).length) :=
  ⟨by decide, c5_chunking_partitions_exactly 2 4 2 365 (by decide)
    (fun _ _ => Except.error "down") ["A", "B", "C"]⟩

lemma backtest_final_components (batch_size max_workers retries
    lookback_days : ℕ) (hb : batch_size ≠ 0)
    (fetches : String → ℕ → Except String DataFrame)
    (tickers : List String) :
    (backtest_tickers batch_size max_workers retries lookback_days fetches
        tickers).finalResults =
      tickers.filterMap (evalTicker retries fetches) ∧
    (backtest_tickers batch_size max_workers retries lookback_days fetches
        tickers).finalMeta.failed_count =
      (tickers.filter
        (fun t => (evalTicker retries fetches t).isNone)).length ∧
    (backtest_tickers batch_size max_workers retries lookback_days fetches
        tickers).finalMeta.completed_count =
      (tickers.filterMap (evalTicker retries fetches)).length := by
  have hfl := chunked_flatten tickers batch_size hb
  have h1 : (backtest_tickers batch_size max_workers retries lookback_days
      fetches tickers).finalResults =
      tickers.filterMap (evalTicker retries fetches) := by
    simp only [backtest_tickers]
    rw [runBatches_final_results, hfl, List.nil_append]
  refine ⟨h1, ?_, ?_⟩
  · simp only [backtest_tickers]
    rw [runBatches_final_failed, hfl]
    simp
  · have h2 : (backtest_tickers batch_size max_workers retries lookback_days
        fetches tickers).finalMeta.completed_count =
        (backtest_tickers batch_size max_workers retries lookback_days
          fetches tickers).finalResults.length := by
      simp only [backtest_tickers]
      exact (runBatches_completed _ _ _ _ _ rfl).2
    rw [h2, h1]

/-- **C10.** Every dispatched ticker is accounted exactly once as a
success or a failure: after the `k`-th per-batch write (`k` counted from
0 here), `completed_count + failed_count` equals the number of tickers in
batches `0 … k`, and after the final write it equals the total number of
tickers. -/
theorem c10_success_failure_accounting
    (batch_size max_workers retries lookback_days : ℕ)
    (hb : 0 < batch_size)
    (fetches : String → ℕ → Except String DataFrame)
    (tickers : List String) :
    (∀ k (hk : k < (backtest_tickers batch_size max_workers retries
        lookback_days fetches tickers).batchWrites.length),
      ((backtest_tickers batch_size max_workers retries lookback_days
          fetches tickers).batchWrites.get ⟨k, hk⟩).meta.completed_count +
        ((backtest_tickers batch_size max_workers retries lookback_days
          fetches tickers).batchWrites.get ⟨k, hk⟩).meta.failed_count =
      (((_chunked tickers batch_size).take (k + 1)).map List.length).sum) ∧
    (backtest_tickers batch_size max_workers retries lookback_days fetches
        tickers).finalMeta.completed_count +
      (backtest_tickers batch_size max_workers retries lookback_days fetches
        tickers).finalMeta.failed_count = tickers.length := by
  constructor
  · intro k hk
    have := runBatches_counts (evalTicker retries fetches)
      (_chunked tickers batch_size) 1 []
      { total_tickers := tickers.length, batch_size := batch_size,
        max_workers := max_workers, retries := retries,
        lookback_days := lookback_days,
        batches := (tickers.length + batch_size - 1) / batch_size,
        completed_batches := 0, completed_count := 0,
        failed_count := 0 } k hk
    simpa using this
  · obtain ⟨-, hf, hc⟩ := backtest_final_components batch_size max_workers
      retries lookback_days (by omega) fetches tickers
    rw [hf, hc]
    exact length_filterMap_add_length_filter _ tickers

theorem c10_success_failure_accounting_witness :
    0 < 2 ∧
    ((∀ k (hk : k < (backtest_tickers 2 4 0 365
        (fun _ _ => Except.error "down") ["A", "B", "C"]).batchWrites.length),
      ((backtest_tickers 2 4 0 365 (fun _ _ => Except.error "down")
          ["A", "B", "C"]).batchWrites.get ⟨k, hk⟩).meta.completed_count +
        ((backtest_tickers 2 4 0 365 (fun _ _ => Except.error "down")
          ["A", "B", "C"]).batchWrites.get ⟨k, hk⟩).meta.failed_count =
      (((_chunked ["A", "B", "C"] 2).take (k + 1)).map List.length).sum) ∧
    (backtest_tickers 2 4 0 365 (fun _ _ => Except.error "down")
        ["A", "B", "C"]).finalMeta.completed_count +
      (backtest_tickers 2 4 0 365 (fun _ _ => Except.error "down")
        ["A", "B", "C"]).finalMeta.failed_count = 3) :=
  ⟨by decide, c10_success_failure_accounting 2 4 0 365 (by decide)
    (fun _ _ => Except.error "down") ["A", "B", "C"]⟩

/-- **C1.** For a ticker whose fetch raises on every attempt, the
single-ticker evaluation makes exactly `retries + 1` fetch attempts,
sleeps `0.8 * k` after the `k`-th failed attempt (`k = 1 … retries + 1`),
and returns `None` — no exception escapes, since the outcome is a plain
value.  In the enclosing run, that ticker is counted exactly once in
`failed_count`, and the run still accounts for every other ticker:
`completed_count + failed_count` ends at the total ticker count. -/
theorem c1_retry_exhaustion_isolated
    (retries : ℕ) (fetch : ℕ → Except String DataFrame)
    (hfail : ∀ a, ∃ e, fetch a = Except.error e)
    (t0 : String) (batch_size max_workers lookback_days : ℕ)
    (hb : 0 < batch_size)
    (fetches : String → ℕ → Except String DataFrame)
    (hfetch : fetches t0 = fetch)
    (tickers : List String) (hcount : tickers.count t0 = 1) :
    (_download_and_backtest_one retries fetch t0).result = none ∧
    (_download_and_backtest_one retries fetch t0).attempts = retries + 1 ∧
    (_download_and_backtest_one retries fetch t0).sleeps =
      (List.range (retries + 1)).map (fun a : ℕ => (0.8 : ℚ) * (a + 1)) ∧
    (backtest_tickers batch_size max_workers retries lookback_days fetches
        tickers).finalMeta.failed_count =
      (tickers.filter
        (fun t => (evalTicker retries fetches t).isNone)).length ∧
    (tickers.filter
        (fun t => (evalTicker retries fetches t).isNone)).count t0 = 1 ∧
    (backtest_tickers batch_size max_workers retries lookback_days fetches
        tickers).finalMeta.completed_count +
      (backtest_tickers batch_size max_workers retries lookback_days fetches
        tickers).finalMeta.failed_count = tickers.length := by
  have hall := attemptFrom_all_fail fetch t0 hfail (retries + 1) 0
  have h1 : (_download_and_backtest_one retries fetch t0).result = none := by
    rw [_download_and_backtest_one, hall]
  have h2 : (_download_and_backtest_one retries fetch t0).attempts =
      retries + 1 := by
    rw [_download_and_backtest_one, hall]
  have h3 : (_download_and_backtest_one retries fetch t0).sleeps =
      (List.range (retries + 1)).map (fun a : ℕ => (0.8 : ℚ) * (a + 1)) := by
    rw [_download_and_backtest_one, hall]
    apply List.map_congr_left
    intro j _
    push_cast
    ring
  have hev0 : evalTicker retries fetches t0 = none := by
    rw [evalTicker, hfetch]
    exact h1
  obtain ⟨-, hf, hc⟩ := backtest_final_components batch_size max_workers
    retries lookback_days (by omega) fetches tickers
  refine ⟨h1, h2, h3, hf, ?_, ?_⟩
  · rw [List.count_filter (by simp [hev0])]
    exact hcount
  · rw [hf, hc]
    exact length_filterMap_add_length_filter _ tickers

theorem c1_retry_exhaustion_isolated_witness :
    ((∀ a : ℕ, ∃ e, (fun _ : ℕ => (Except.error "boom" :
        Except String DataFrame)) a = Except.error e) ∧ 0 < 1 ∧
      (fun _ : String => fun _ : ℕ => (Except.error "boom" :
        Except String DataFrame)) "A" =
        (fun _ : ℕ => (Except.error "boom" : Except String DataFrame)) ∧
      (["A"] : List String).count "A" = 1) ∧
    (_download_and_backtest_one 1
        (fun _ : ℕ => (Except.error "boom" : Except String DataFrame))
        "A").result = none ∧
    (_download_and_backtest_one 1
        (fun _ : ℕ => (Except.error "boom" : Except String DataFrame))
        "A").attempts = 1 + 1 ∧
    (_download_and_backtest_one 1
        (fun _ : ℕ => (Except.error "boom" : Except String DataFrame))
        "A").sleeps =
      (List.range (1 + 1)).map (fun a : ℕ => (0.8 : ℚ) * (a + 1)) ∧
    (backtest_tickers 1 4 1 365
        (fun _ _ => (Except.error "boom" : Except String DataFrame))
        ["A"]).finalMeta.failed_count =
      ((["A"] : List String).filter
        (fun t => (evalTicker 1
          (fun _ _ => (Except.error "boom" : Except String DataFrame))
          t).isNone)).length ∧
    ((["A"] : List String).filter
        (fun t => (evalTicker 1
          (fun _ _ => (Except.error "boom" : Except String DataFrame))
          t).isNone)).count "A" = 1 ∧
    (backtest_tickers 1 4 1 365
        (fun _ _ => (Except.error "boom" : Except String DataFrame))
        ["A"]).finalMeta.completed_count +
      (backtest_tickers 1 4 1 365
        (fun _ _ => (Except.error "boom" : Except String DataFrame))
        ["A"]).finalMeta.failed_count = 1 :=
  ⟨⟨fun _ => ⟨"boom", rfl⟩, by decide, rfl, by decide⟩,
    c1_retry_exhaustion_isolated 1
      (fun _ : ℕ => (Except.error "boom" : Except String DataFrame))
      (fun _ => ⟨"boom", rfl⟩) "A" 1 4 365 (by decide)
      (fun _ _ => (Except.error "boom" : Except String DataFrame)) rfl
      ["A"] (by decide)⟩

lemma flatten_take_sublist {α : Type} (L : List (List α)) (k : ℕ) :
    ((L.take k).flatten).Sublist L.flatten := by
  conv_rhs => rw [← List.take_append_drop k L]
  rw [List.flatten_append]
  exact List.sublist_append_left _ _

/-- **C7, amended.** Provided the input ticker list itself contains no
duplicate symbols (as a normalized universe is supposed to), every
persisted snapshot's results contain no two entries with the same ticker,
and a ticker appears in the run's accumulated results iff its
fetch-and-evaluate call returned non-null metrics.  (The original claim,
quantified over *every* run, fails when the input list repeats a symbol:
see the counterexample.) -/
theorem c7_no_duplicates_and_membership
    (batch_size max_workers retries lookback_days : ℕ)
    (hb : 0 < batch_size)
    (fetches : String → ℕ → Except String DataFrame)
    (tickers : List String) (hnd : tickers.Nodup) :
    (∀ snap ∈ (backtest_tickers batch_size max_workers retries lookback_days
        fetches tickers).writes,
      (snap.results.map TickerResult.ticker).Nodup) ∧
    (∀ t, t ∈ (backtest_tickers batch_size max_workers retries lookback_days
        fetches tickers).finalResults.map TickerResult.ticker ↔
      t ∈ tickers ∧ ∃ r, evalTicker retries fetches t = some r) := by
  have hev : ∀ t x, evalTicker retries fetches t = some x → x.ticker = t :=
    fun t x h => evalTicker_ticker retries fetches t x h
  have hb' : batch_size ≠ 0 := by omega
  have hfl := chunked_flatten tickers batch_size hb'
  obtain ⟨hfr, -, -⟩ := backtest_final_components batch_size max_workers
    retries lookback_days hb' fetches tickers
  have hnodupL : ∀ l : List String, l.Sublist tickers →
      ((l.filterMap (evalTicker retries fetches)).map
        TickerResult.ticker).Nodup := by
    intro l hsub
    rw [map_ticker_filterMap _ hev]
    exact List.Nodup.sublist ((List.filter_sublist l).trans hsub) hnd
  constructor
  · intro snap hsnap
    simp only [backtest_tickers, RunOutput.writes, List.mem_append,
      List.mem_cons, List.mem_singleton, List.not_mem_nil, or_false] at hsnap
    rcases hsnap with (rfl | hsnap) | rfl
    · simp [_save_progress, sortByReturnDesc, List.insertionSort]
    · obtain ⟨⟨k, hk⟩, rfl⟩ := List.mem_iff_get.mp hsnap
      rw [runBatches_results_at, List.nil_append]
      refine (((sortByReturnDesc_perm _).map TickerResult.ticker).symm).nodup
        ?_
      have hsub := flatten_take_sublist (_chunked tickers batch_size) (k + 1)
      rw [hfl] at hsub
      exact hnodupL _ hsub
    · show (((sortByReturnDesc _).map TickerResult.ticker)).Nodup
      refine (((sortByReturnDesc_perm _).map TickerResult.ticker).symm).nodup
        ?_
      have hfr' := hfr
      simp only [backtest_tickers] at hfr'
      rw [hfr']
      exact hnodupL tickers (List.Sublist.refl tickers)
  · intro t
    rw [hfr, map_ticker_filterMap _ hev, List.mem_filter]
    simp [Option.isSome_iff_exists]

theorem c7_no_duplicates_and_membership_witness :
    (0 < 1 ∧ (["A", "B"] : List String).Nodup) ∧
    ((∀ snap ∈ (backtest_tickers 1 4 0 365
        (fun _ _ => Except.ok ⟨true, [1]⟩) ["A", "B"]).writes,
      (snap.results.map TickerResult.ticker).Nodup) ∧
    (∀ t, t ∈ (backtest_tickers 1 4 0 365
        (fun _ _ => Except.ok ⟨true, [1]⟩) ["A", "B"]).finalResults.map
          TickerResult.ticker ↔
      t ∈ (["A", "B"] : List String) ∧
        ∃ r, evalTicker 0 (fun _ _ => Except.ok ⟨true, [1]⟩) t = some r)) :=
  ⟨⟨by decide, by decide⟩, c7_no_duplicates_and_membership 1 4 0 365
    (by decide) (fun _ _ => Except.ok ⟨true, [1]⟩) ["A", "B"] (by decide)⟩

/-- **C7, counterexample.** The claim as stated quantifies over *every*
run of the batch scheduler.  A run whose ticker list repeats a symbol —
`backtest_tickers` submits one future per list element, deduplicating
nothing — persists a snapshot whose results carry the same ticker twice,
so "results contains no two entries with the same ticker" fails. -/
theorem c7_counterexample :
    ∃ snap ∈ (backtest_tickers 100 4 2 365
        (fun _ _ => Except.ok ⟨true, [1]⟩) ["A", "A"]).writes,
      ¬ (snap.results.map TickerResult.ticker).Nodup := by
  have hc : _compute_returns ⟨true, [1]⟩ = some ⟨0, 0, 0⟩ := by
    unfold _compute_returns strategyCum buyHoldCum
    norm_num
  have hev : evalTicker 2 (fun _ _ => Except.ok ⟨true, [1]⟩) "A" =
      some ⟨"A", 0, 0, 0⟩ := by
    simp [evalTicker, _download_and_backtest_one, attemptFrom, hc]
  have h1 : (["A", "A"] : List String).take 100 = ["A", "A"] := by decide
  have h2 : (["A", "A"] : List String).drop 100 = [] := by decide
  have hchunks : _chunked (["A", "A"] : List String) 100 = [["A", "A"]] := by
    rw [chunked_cons (by decide) (by decide), h1, h2, chunked_nil]
  have hfr : (backtest_tickers 100 4 2 365
      (fun _ _ => Except.ok ⟨true, [1]⟩) ["A", "A"]).finalResults =
      [⟨"A", 0, 0, 0⟩, ⟨"A", 0, 0, 0⟩] := by
    simp only [backtest_tickers]
    rw [runBatches_final_results, hchunks]
    simp [hev]
  have hmem : _save_progress
      (backtest_tickers 100 4 2 365 (fun _ _ => Except.ok ⟨true, [1]⟩)
        ["A", "A"]).finalResults
      (backtest_tickers 100 4 2 365 (fun _ _ => Except.ok ⟨true, [1]⟩)
        ["A", "A"]).finalMeta ∈
      (backtest_tickers 100 4 2 365 (fun _ _ => Except.ok ⟨true, [1]⟩)
        ["A", "A"]).writes := by
    simp [RunOutput.writes]
  refine ⟨_, hmem, ?_⟩
  show ¬ ((sortByReturnDesc (backtest_tickers 100 4 2 365
      (fun _ _ => Except.ok ⟨true, [1]⟩) ["A", "A"]).finalResults).map
        TickerResult.ticker).Nodup
  rw [hfr]
  have hsort : sortByReturnDesc [⟨"A", 0, 0, 0⟩, ⟨"A", 0, 0, 0⟩] =
      [⟨"A", 0, 0, 0⟩, ⟨"A", 0, 0, 0⟩] := by
    simp [sortByReturnDesc, List.insertionSort, List.orderedInsert]
  rw [hsort]
  simp

lemma dedupUpper_eq_firstOcc : ∀ (ts seen : List (List Char)),
    dedupUpper ts seen =
      (firstOccurrenceDedup (ts.filter (fun t => decide (t ∉ seen)))).map
        (fun t => String.mk (upperChars t)) := by
  intro ts
  induction ts with
  | nil =>
    intro seen
    simp [dedupUpper, firstOccurrenceDedup]
  | cons t ts ih =>
    intro seen
    by_cases h : t ∈ seen
    · rw [show dedupUpper (t :: ts) seen = dedupUpper ts seen by
        simp [dedupUpper, h]]
      rw [ih seen]
      congr 1
      simp [List.filter_cons, h]
    · rw [show dedupUpper (t :: ts) seen =
        String.mk (upperChars t) :: dedupUpper ts (t :: seen) by
          simp [dedupUpper, h]]
      have hfc : (t :: ts).filter (fun x => decide (x ∉ seen)) =
          t :: ts.filter (fun x => decide (x ∉ seen)) := by
        simp [List.filter_cons, h]
      rw [hfc, firstOccurrenceDedup, List.map_cons, ih (t :: seen)]
      congr 2
      rw [List.filter_filter]
      congr 1
      apply List.filter_congr
      intro x _
      by_cases hx : x = t <;> by_cases hs : x ∈ seen <;>
        simp [hx, hs, List.mem_cons]

/-- **C6, amended.** `read_tickers` de-duplicates *before* uppercasing:
the loaded list is the first-occurrence-wins de-duplication of the raw
(trimmed) tokens, each then uppercased — so two entries that differ only
in letter case yield two (duplicate) uppercase entries, not one.  An
absent file, or one yielding no tokens, falls back to the fixed default
list. -/
theorem c6_dedup_before_uppercase :
    read_tickers none = default_tickers ∧
    (∀ raw : String, tokenize raw = [] →
      read_tickers (some raw) = default_tickers) ∧
    (∀ raw : String, tokenize raw ≠ [] →
      read_tickers (some raw) =
        (firstOccurrenceDedup (tokenize raw)).map
          (fun t => String.mk (upperChars t))) := by
  have hkey : ∀ raw : String, dedupUpper (tokenize raw) [] =
      (firstOccurrenceDedup (tokenize raw)).map
        (fun t => String.mk (upperChars t)) := by
    intro raw
    rw [dedupUpper_eq_firstOcc (tokenize raw) []]
    congr 2
    apply List.filter_eq_self.mpr
    intro x _
    simp
  refine ⟨rfl, ?_, ?_⟩
  · intro raw h
    simp [read_tickers, h, dedupUpper]
  · intro raw h
    have hne : dedupUpper (tokenize raw) [] ≠ [] := by
      rw [hkey]
      rcases he : tokenize raw with _ | ⟨t, ts⟩
      · exact absurd he h
      · rw [firstOccurrenceDedup]
        simp
    simp only [read_tickers, if_pos hne]
    exact hkey raw

theorem c6_dedup_before_uppercase_witness :
    tokenize "aaa AAA" ≠ [] ∧
    read_tickers (some "aaa AAA") =
      (firstOccurrenceDedup (tokenize "aaa AAA")).map
        (fun t => String.mk (upperChars t)) :=
  ⟨by decide, c6_dedup_before_uppercase.2.2 "aaa AAA" (by decide)⟩

/-- **C6, counterexample.** The claim says two entries differing only in
letter case yield a single uppercase entry.  On the file content
`"aaa AAA"` the code returns `["AAA", "AAA"]` — the raw tokens are
distinct when membership in `seen` is tested, and both are uppercased
afterwards — not the claimed `["AAA"]`. -/
theorem c6_counterexample :
    read_tickers (some "aaa AAA") = ["AAA", "AAA"] ∧
    read_tickers (some "aaa AAA") ≠ ["AAA"] ∧
    ¬ (read_tickers (some "aaa AAA")).Nodup := by
  refine ⟨by decide, by decide, by decide⟩

/-- **C8, counterexample.** `_save_state` persists via `write_text`,
an in-place truncate-then-write: a concurrent reader can observe the
truncated (empty) file, a state that is neither the old snapshot nor the
new one — unlike a stage-then-rename replace, whose only observable
states are old and new. -/
theorem c8_counterexample :
    FileState.written "" ∈
      _save_state_states (FileState.written "old") "new" ∧
    FileState.written "" ∉
      atomic_replace_states (FileState.written "old") "new" ∧
    _save_state_states (FileState.written "old") "new" ≠
      atomic_replace_states (FileState.written "old") "new" := by
  refine ⟨by decide, by decide, by decide⟩

/-- **C8, amended.** Every `_save_state` write is an in-place
truncate-then-write, not an atomic replace: whenever the previous state
and the new payload are both non-empty, a concurrent reader can observe
an intermediate state (the truncated, empty file) that is neither the
previous snapshot nor the new one. -/
theorem c8_write_not_atomic (old : FileState) (payload : String)
    (h1 : old ≠ FileState.written "") (h2 : payload ≠ "") :
    ∃ s ∈ _save_state_states old payload,
      s ≠ old ∧ s ≠ FileState.written payload := by
  refine ⟨FileState.written "", ?_, ?_, ?_⟩
  · simp [_save_state_states, write_text_states]
  · exact fun h => h1 h.symm
  · intro h
    injection h with h'
    exact h2 h'.symm

theorem c8_write_not_atomic_witness :
    ((FileState.absent ≠ FileState.written "") ∧ ("x" : String) ≠ "") ∧
    ∃ s ∈ _save_state_states FileState.absent "x",
      s ≠ FileState.absent ∧ s ≠ FileState.written "x" :=
  ⟨⟨by decide, by decide⟩,
    c8_write_not_atomic FileState.absent "x" (by decide) (by decide)⟩
